import Mathlib

/-!
Verification of the analog-to-logic conversion engine of `pv::data::SignalBase`
(src/pv/data/signalbase.hpp). The repository sources contain only the class
declaration; every member-function body referenced below is therefore modelled
from the specification (and, where present, from the declaration's own
documentation comments), as noted on each definition. Samples and thresholds
are modelled as rationals, logic bits as naturals.
-/

namespace PulseView

/-- Embedded from src/pv/data/signalbase.hpp:72-76: the kind of conversion
performed on a channel. -/
inductive ConversionType where
  | NoConversion
  | A2LConversionByThreshold
  | A2LConversionBySchmittTrigger
  deriving DecidableEq, Repr

/-- Embedded from src/pv/data/signalbase.hpp:65-70: the type of a channel. -/
inductive ChannelType where
  | AnalogChannel
  | LogicChannel
  | DecodeChannel
  | MathChannel
  deriving DecidableEq, Repr

/-- Modelled from the spec: the body of `convert_a2l_threshold` (declared at
src/pv/data/signalbase.hpp:279) is not in the sources. Spec section 4.2:
"Output: one bit — 1 if sample ≥ threshold, else 0. Stateless across
samples." -/
def convert_a2l_threshold (threshold value : ℚ) : ℕ :=
  if threshold ≤ value then 1 else 0

/-- Modelled from the spec: the body of `convert_a2l_schmitt_trigger`
(declared at src/pv/data/signalbase.hpp:280-281) is not in the sources.
Spec section 4.3: "if sample ≥ high threshold, output/state = 1; if sample ≤
low threshold, output/state = 0; otherwise output/state is unchanged".
The first component is the returned output bit, the second the updated
carried state (the by-reference `state` argument of the declaration). -/
def convert_a2l_schmitt_trigger (lo_thr hi_thr value : ℚ) (state : ℕ) : ℕ × ℕ :=
  if hi_thr ≤ value then (1, 1)
  else if value ≤ lo_thr then (0, 0)
  else (state, state)

/-- Sample-by-sample application of the simple-threshold algorithm to a
sequence, as the conversion worker does per spec section 4.4 step 4. -/
def convert_threshold_seq (threshold : ℚ) (xs : List ℚ) : List ℕ :=
  xs.map (convert_a2l_threshold threshold)

/-- Sample-by-sample application of the schmitt-trigger algorithm to a
sequence, threading the carried one-bit state, as the conversion worker does
per spec section 4.4 step 4. Returns the output bits and the final state. -/
def convert_schmitt_seq (lo hi : ℚ) : List ℚ → ℕ → List ℕ × ℕ
  | [], state => ([], state)
  | x :: rest, state =>
      let step := convert_a2l_schmitt_trigger lo hi x state
      let r := convert_schmitt_seq lo hi rest step.2
      (step.1 :: r.1, r.2)

/-- Helper: the schmitt-trigger sequence conversion emits exactly one output
bit per input sample. -/
lemma convert_schmitt_seq_length (lo hi : ℚ) (xs : List ℚ) (s : ℕ) :
    (convert_schmitt_seq lo hi xs s).1.length = xs.length := by
  induction xs generalizing s with
  | nil => rfl
  | cons x rest ih => simp [convert_schmitt_seq, ih]

/-- C1: the simple-threshold conversion outputs bit 1 iff the sample is at
least the threshold, carries no state between samples (converting a
concatenation is the concatenation of the conversions), and maps the sequence
[0.0, 0.3, 0.6, 0.9, 0.2, 0.1] with threshold 0.5 to [0,0,1,1,0,0]. -/
theorem threshold_conversion_correct :
    (∀ s t : ℚ, (convert_a2l_threshold t s = 1 ↔ t ≤ s)
      ∧ (convert_a2l_threshold t s = 0 ↔ ¬ t ≤ s))
    ∧ (∀ (t : ℚ) (xs ys : List ℚ),
        convert_threshold_seq t (xs ++ ys)
          = convert_threshold_seq t xs ++ convert_threshold_seq t ys)
    ∧ convert_threshold_seq (1/2) [0, 3/10, 6/10, 9/10, 2/10, 1/10]
        = [0, 0, 1, 1, 0, 0] := by
  refine ⟨fun s t => ?_, fun t xs ys => ?_,
    by norm_num [convert_threshold_seq, convert_a2l_threshold]⟩
  · constructor <;> constructor <;>
      simp only [convert_a2l_threshold] <;> split <;> simp_all
  · simp [convert_threshold_seq]

/-- C2: for low ≤ high, the schmitt-trigger step outputs and stores 1 when
the sample is at least the high threshold, outputs and stores 0 when the
sample is at most the low threshold (and below the high one), and otherwise
returns the carried state unchanged. -/
theorem schmitt_trigger_step_correct (lo hi value : ℚ) (state : ℕ)
    (h : lo ≤ hi) :
    (hi ≤ value → convert_a2l_schmitt_trigger lo hi value state = (1, 1))
    ∧ (value < hi → value ≤ lo →
        convert_a2l_schmitt_trigger lo hi value state = (0, 0))
    ∧ (lo < value → value < hi →
        convert_a2l_schmitt_trigger lo hi value state = (state, state)) := by
  refine ⟨fun h1 => ?_, fun h1 h2 => ?_, fun h1 h2 => ?_⟩ <;>
    simp only [convert_a2l_schmitt_trigger] <;> split_ifs <;>
      first | rfl | linarith

/-- Witness for C2 at concrete inputs. -/
theorem schmitt_trigger_step_correct_witness :
    convert_a2l_schmitt_trigger 0 1 (3/2) 0 = (1, 1) :=
  (schmitt_trigger_step_correct 0 1 (3/2) 0 (by norm_num)).1 (by norm_num)

/-- C3 counterexample: with low 0.2, high 0.7 and initial state 0, the
schmitt-trigger conversion of [0.0, 0.3, 0.6, 0.9, 0.2, 0.1] does not
produce [0,0,1,1,1,0]. -/
theorem schmitt_scenario_claimed_output_false :
    ¬ (convert_schmitt_seq (2/10) (7/10) [0, 3/10, 6/10, 9/10, 2/10, 1/10] 0).1
        = [0, 0, 1, 1, 1, 0] := by
  norm_num [convert_schmitt_seq, convert_a2l_schmitt_trigger]

/-- C3 (amended): with low 0.2, high 0.7 and initial state 0, the
schmitt-trigger conversion of [0.0, 0.3, 0.6, 0.9, 0.2, 0.1] produces
[0,0,0,1,0,0] with final state 0: the 0.6 sample leaves the state 0 since it
is below the high threshold, and the state drops to 0 already at the 0.2
sample since samples at most the low threshold force state 0. -/
theorem schmitt_scenario_actual_output :
    convert_schmitt_seq (2/10) (7/10) [0, 3/10, 6/10, 9/10, 2/10, 1/10] 0
      = ([0, 0, 0, 1, 0, 0], 0) := by
  norm_num [convert_schmitt_seq, convert_a2l_schmitt_trigger]

/-- C4: for low ≤ high, schmitt-trigger-converting a split sequence in two
runs, carrying the final state of the first into the second, yields exactly
the conversion of the whole sequence (output bits and final state): chunked
conversion is indistinguishable from whole-segment conversion. -/
theorem schmitt_split_conversion_eq (lo hi : ℚ) (h : lo ≤ hi)
    (xs ys : List ℚ) (s : ℕ) :
    convert_schmitt_seq lo hi (xs ++ ys) s =
      ((convert_schmitt_seq lo hi xs s).1
          ++ (convert_schmitt_seq lo hi ys (convert_schmitt_seq lo hi xs s).2).1,
        (convert_schmitt_seq lo hi ys (convert_schmitt_seq lo hi xs s).2).2) := by
  induction xs generalizing s with
  | nil => simp [convert_schmitt_seq]
  | cons x rest ih => simp [convert_schmitt_seq, ih]

/-- Witness for C4 at a concrete split. -/
theorem schmitt_split_conversion_eq_witness :
    convert_schmitt_seq 0 1 ([2] ++ [1/2, -1]) 0 =
      ((convert_schmitt_seq 0 1 [2] 0).1
          ++ (convert_schmitt_seq 0 1 [1/2, -1] (convert_schmitt_seq 0 1 [2] 0).2).1,
        (convert_schmitt_seq 0 1 [1/2, -1] (convert_schmitt_seq 0 1 [2] 0).2).2) :=
  schmitt_split_conversion_eq 0 1 (by norm_num) [2] [1/2, -1] 0

/-- Notification events emitted by SignalBase (Q_SIGNALS block,
src/pv/data/signalbase.hpp:291-305), restricted to the conversion engine. -/
inductive SigEvent where
  | conversion_type_changed (t : ConversionType)
  | samples_cleared
  | samples_added (segment_id start_sample end_sample : ℕ)
  deriving DecidableEq, Repr

/-- Option-mapping key of the custom threshold of the simple-threshold
conversion (a key of `conversion_options_`, signalbase.hpp:325). -/
def threshold_value_key : String := "threshold_value"

/-- Option-mapping key of the custom low threshold of the schmitt-trigger
conversion. -/
def schmitt_lo_thr_key : String := "schmitt_lo_thr"

/-- Option-mapping key of the custom high threshold of the schmitt-trigger
conversion. -/
def schmitt_hi_thr_key : String := "schmitt_hi_thr"

/-- Controller-visible state of one SignalBase object: the conversion
configuration fields of signalbase.hpp:319-333 (conversion type, option
mapping, preset, observed amplitude range), whether an analog data store is
bound, the converted output store, whether a conversion worker is alive, and
the trace of emitted notifications. -/
structure SignalState where
  conversion_type : ConversionType
  conversion_options : List (String × ℚ)
  conversion_preset : Int
  min_value : ℚ
  max_value : ℚ
  has_analog_data : Bool
  converted_samples : List ℕ
  worker_running : Bool
  events : List SigEvent
  deriving DecidableEq, Repr

/-- Modelled from the spec: section 4.1 resets the options to "the new kind's
defaults" when the kind changes; the spec does not enumerate the default
contents, so they are modelled as the empty mapping for every kind. -/
def conversion_options_default (_t : ConversionType) : List (String × ℚ) := []

/-- Modelled from the spec: the body of `stop_conversion`
(signalbase.hpp:289) is absent. Section 4.1 `stop()`: interrupts, wakes and
joins the worker; idempotent when none is running. -/
def stop_conversion (st : SignalState) : SignalState :=
  { st with worker_running := false }

/-- Modelled from the spec: the body of `start_conversion`
(signalbase.hpp:274) is absent. Section 4.1 immediate `start`: stops any
running worker synchronously, clears the output store and emits a samples
cleared notification, then spawns a new worker if the active kind is not
none (and, per section 7, an analog data store is bound — otherwise start is
a no-op producing no worker output). -/
def start_conversion (st : SignalState) : SignalState :=
  let st1 := stop_conversion st
  let st2 := { st1 with converted_samples := [],
                        events := st1.events ++ [SigEvent.samples_cleared] }
  if st2.conversion_type ≠ ConversionType.NoConversion ∧ st2.has_analog_data = true
  then { st2 with worker_running := true }
  else st2

/-- Modelled from the spec: the body of `set_conversion_type`
(signalbase.hpp:200) is absent. Section 4.1 `set_kind`: when the kind
differs, stop the worker synchronously, clear the output store, reset the
options to the new kind's defaults and emit a kind-changed notification —
combined with the declaration's own documentation comment
(signalbase.hpp:198) "Restarts the conversion.", which has the call restart
the conversion (via `start_conversion`) rather than leave the worker
stopped. -/
def set_conversion_type (st : SignalState) (t : ConversionType) : SignalState :=
  if t = st.conversion_type then st
  else
    let st1 := stop_conversion st
    let st2 := { st1 with converted_samples := [],
                          conversion_options := conversion_options_default t,
                          conversion_type := t }
    let st3 := start_conversion st2
    { st3 with events := st3.events ++ [SigEvent.conversion_type_changed t] }

/-- Replacement (or insertion) of one key in the option mapping, the map
update `conversion_options_[key] = value`. -/
def set_option_value : List (String × ℚ) → String → ℚ → List (String × ℚ)
  | [], key, value => [(key, value)]
  | (k, v) :: rest, key, value =>
      if key = k then (k, value) :: rest
      else (k, v) :: set_option_value rest key value

/-- Modelled from the spec: the body of `set_conversion_option`
(signalbase.hpp:216) is absent. Section 4.1 `set_option`: stores the value
in the option mapping without validating the name against the current kind
and returns whether the stored value differs from the previous one; does not
restart the worker. -/
def set_conversion_option (st : SignalState) (key : String) (value : ℚ) :
    SignalState × Bool :=
  let prev := List.lookup key st.conversion_options
  let changed : Bool := if prev = some value then false else true
  ({ st with conversion_options := set_option_value st.conversion_options key value },
   changed)

/-- Modelled from the spec: fixed constants of the simple-threshold presets
with id at least 1 ("fixed algorithm-specific constants", logic-level
standards); the spec does not enumerate them, representative constants are
chosen. -/
def a2l_threshold_fixed (id : Int) : ℚ := if id = 1 then 3/2 else 5/2

/-- Modelled from the spec: fixed low-threshold constants of the
schmitt-trigger presets with id at least 1. -/
def a2l_schmitt_lo_fixed (id : Int) : ℚ := if id = 1 then 4/5 else 1

/-- Modelled from the spec: fixed high-threshold constants of the
schmitt-trigger presets with id at least 1. -/
def a2l_schmitt_hi_fixed (id : Int) : ℚ := if id = 1 then 2 else 3/2

/-- Modelled from the spec: the body of `get_conversion_thresholds`
(signalbase.hpp:236-237) is absent. Section 4.1 `get_thresholds`: computes
the effective thresholds for a given kind (NoConversion selecting the
currently active kind) without mutating state; `always_custom` forces the
custom option fields (missing fields default to 0); otherwise preset -1
gives the custom fields, preset 0 values derived from the observed amplitude
range (the midpoint for the single threshold, evenly spaced fractions for
low/high), and preset at least 1 fixed constants. Returned with the
(unchanged) state to make the absence of mutation a provable statement. -/
def get_conversion_thresholds (st : SignalState) (t : ConversionType)
    (always_custom : Bool) : SignalState × List ℚ :=
  let conv_type := if t = ConversionType.NoConversion then st.conversion_type else t
  let preset : Int := if always_custom then -1 else st.conversion_preset
  match conv_type with
  | ConversionType.NoConversion => (st, [])
  | ConversionType.A2LConversionByThreshold =>
      if preset = 0 then (st, [(st.min_value + st.max_value) / 2])
      else if 1 ≤ preset then (st, [a2l_threshold_fixed preset])
      else (st, [(List.lookup threshold_value_key st.conversion_options).getD 0])
  | ConversionType.A2LConversionBySchmittTrigger =>
      if preset = 0 then
        (st, [st.min_value + (st.max_value - st.min_value) / 3,
              st.min_value + (st.max_value - st.min_value) * 2 / 3])
      else if 1 ≤ preset then
        (st, [a2l_schmitt_lo_fixed preset, a2l_schmitt_hi_fixed preset])
      else
        (st, [(List.lookup schmitt_lo_thr_key st.conversion_options).getD 0,
              (List.lookup schmitt_hi_thr_key st.conversion_options).getD 0])

/-- Concrete state used to instantiate the controller theorems: no conversion
active, analog data bound, a stale converted store, no worker running. -/
def st_example : SignalState :=
  { conversion_type := ConversionType.NoConversion
    conversion_options := [(threshold_value_key, 2)]
    conversion_preset := -1
    min_value := 0
    max_value := 1
    has_analog_data := true
    converted_samples := [1, 0]
    worker_running := false
    events := [] }

/-- C6 counterexample: calling set_conversion_type with a different,
non-none kind on a signal with analog data bound leaves a conversion worker
running (the declaration's documentation says "Restarts the conversion."),
refuting the claim that the call does not itself start a new conversion
worker. -/
theorem set_conversion_type_starts_worker :
    (set_conversion_type st_example ConversionType.A2LConversionByThreshold).worker_running
      = true := by
  decide

/-- C6 (amended): when set_conversion_type is called with a kind different
from the current one, it stops any running worker synchronously, clears the
converted output store, resets the conversion options to the new kind's
defaults, emits a kind-changed notification — and restarts the conversion,
so a new worker is running afterwards exactly when the new kind is not
NoConversion and analog data is bound. -/
theorem set_conversion_type_spec (st : SignalState) (t : ConversionType)
    (h : t ≠ st.conversion_type) :
    (set_conversion_type st t).conversion_type = t
    ∧ (set_conversion_type st t).converted_samples = []
    ∧ (set_conversion_type st t).conversion_options = conversion_options_default t
    ∧ (set_conversion_type st t).events
        = st.events ++ [SigEvent.samples_cleared, SigEvent.conversion_type_changed t]
    ∧ ((set_conversion_type st t).worker_running = true
        ↔ (t ≠ ConversionType.NoConversion ∧ st.has_analog_data = true)) := by
  simp only [set_conversion_type, start_conversion, stop_conversion, if_neg h]
  by_cases hc : t ≠ ConversionType.NoConversion ∧ st.has_analog_data = true <;>
    simp [hc]

/-- Witness for C6's amended theorem at a concrete state. -/
theorem set_conversion_type_spec_witness :
    (set_conversion_type st_example ConversionType.A2LConversionByThreshold).conversion_type
      = ConversionType.A2LConversionByThreshold :=
  (set_conversion_type_spec st_example ConversionType.A2LConversionByThreshold
    (by decide)).1

/-- Helper: looking up the key just stored by set_option_value yields the
stored value. -/
lemma lookup_set_option_value_self (opts : List (String × ℚ)) (key : String)
    (value : ℚ) :
    List.lookup key (set_option_value opts key value) = some value := by
  induction opts with
  | nil => simp [set_option_value, List.lookup]
  | cons p rest ih =>
      obtain ⟨k, v⟩ := p
      by_cases hk : key = k
      · simp [set_option_value, hk, List.lookup]
      · have hb : (key == k) = false := beq_eq_false_iff_ne.mpr hk
        simp [set_option_value, hk, List.lookup, hb, ih]

/-- Helper: set_option_value leaves every other key's binding unchanged. -/
lemma lookup_set_option_value_ne (opts : List (String × ℚ)) (key : String)
    (value : ℚ) (k' : String) (h : k' ≠ key) :
    List.lookup k' (set_option_value opts key value) = List.lookup k' opts := by
  have hb : (k' == key) = false := beq_eq_false_iff_ne.mpr h
  induction opts with
  | nil => simp [set_option_value, List.lookup, hb]
  | cons p rest ih =>
      obtain ⟨k, v⟩ := p
      by_cases hk : key = k
      · subst hk
        simp [set_option_value, List.lookup, hb]
      · simp [set_option_value, hk, List.lookup, ih]

/-- C8: set_conversion_option stores the value under the given name (any
name, with every other binding and the conversion kind, worker and event
trace untouched), returns true exactly when the stored value differs from
the previously held one, and behaves identically whatever the current
conversion kind is (no validation of the name against the kind). -/
theorem set_conversion_option_spec (st : SignalState) (key : String) (value : ℚ) :
    List.lookup key (set_conversion_option st key value).1.conversion_options
      = some value
    ∧ (∀ k', k' ≠ key →
        List.lookup k' (set_conversion_option st key value).1.conversion_options
          = List.lookup k' st.conversion_options)
    ∧ ((set_conversion_option st key value).2 = true
        ↔ List.lookup key st.conversion_options ≠ some value)
    ∧ (set_conversion_option st key value).1.worker_running = st.worker_running
    ∧ (set_conversion_option st key value).1.conversion_type = st.conversion_type
    ∧ (set_conversion_option st key value).1.events = st.events
    ∧ (∀ t, (set_conversion_option { st with conversion_type := t } key value).2
        = (set_conversion_option st key value).2) := by
  refine ⟨lookup_set_option_value_self _ _ _,
    fun k' h => lookup_set_option_value_ne _ _ _ _ h, ?_, rfl, rfl, rfl, fun t => rfl⟩
  by_cases hp : List.lookup key st.conversion_options = some value <;>
    simp [set_conversion_option, hp]

/-- Witness for C8 at concrete inputs. -/
theorem set_conversion_option_spec_witness :
    List.lookup schmitt_lo_thr_key
        (set_conversion_option st_example threshold_value_key 1).1.conversion_options
      = List.lookup schmitt_lo_thr_key st_example.conversion_options :=
  (set_conversion_option_spec st_example threshold_value_key 1).2.1
    schmitt_lo_thr_key (by decide)

/-- Helper equation: the threshold-kind arm of get_conversion_thresholds
without always_custom. -/
lemma get_conversion_thresholds_threshold_eq (st : SignalState) :
    get_conversion_thresholds st ConversionType.A2LConversionByThreshold false
      = (if st.conversion_preset = 0 then (st, [(st.min_value + st.max_value) / 2])
         else if 1 ≤ st.conversion_preset then
           (st, [a2l_threshold_fixed st.conversion_preset])
         else
           (st, [(List.lookup threshold_value_key st.conversion_options).getD 0])) :=
  rfl

/-- Helper equation: the schmitt-trigger arm of get_conversion_thresholds
without always_custom. -/
lemma get_conversion_thresholds_schmitt_eq (st : SignalState) :
    get_conversion_thresholds st ConversionType.A2LConversionBySchmittTrigger false
      = (if st.conversion_preset = 0 then
           (st, [st.min_value + (st.max_value - st.min_value) / 3,
                 st.min_value + (st.max_value - st.min_value) * 2 / 3])
         else if 1 ≤ st.conversion_preset then
           (st, [a2l_schmitt_lo_fixed st.conversion_preset,
                 a2l_schmitt_hi_fixed st.conversion_preset])
         else
           (st, [(List.lookup schmitt_lo_thr_key st.conversion_options).getD 0,
                 (List.lookup schmitt_hi_thr_key st.conversion_options).getD 0])) :=
  rfl

/-- Concrete state with the dynamic preset active and observed range
(0.0, 1.0), used to instantiate the threshold theorems. -/
def st_dyn : SignalState :=
  { conversion_type := ConversionType.A2LConversionByThreshold
    conversion_options := []
    conversion_preset := 0
    min_value := 0
    max_value := 1
    has_analog_data := true
    converted_samples := []
    worker_running := false
    events := [] }

/-- C7: get_conversion_thresholds mutates no state; with always_custom it
returns the custom option fields (missing fields defaulting to 0) whatever
the active preset; otherwise preset -1 gives the custom fields, preset 0
gives values derived from the observed amplitude range — the midpoint for
the single-threshold kind, so range (0.0, 1.0) gives 0.5 — and presets of at
least 1 give fixed constants, independent of the options and of the observed
range. -/
theorem get_conversion_thresholds_spec :
    (∀ st t b, (get_conversion_thresholds st t b).1 = st)
    ∧ (∀ st : SignalState,
        (get_conversion_thresholds st ConversionType.A2LConversionByThreshold true).2
          = [(List.lookup threshold_value_key st.conversion_options).getD 0])
    ∧ (∀ st : SignalState,
        (get_conversion_thresholds st ConversionType.A2LConversionBySchmittTrigger true).2
          = [(List.lookup schmitt_lo_thr_key st.conversion_options).getD 0,
             (List.lookup schmitt_hi_thr_key st.conversion_options).getD 0])
    ∧ (∀ st : SignalState, st.conversion_preset = -1 →
        (get_conversion_thresholds st ConversionType.A2LConversionByThreshold false).2
          = [(List.lookup threshold_value_key st.conversion_options).getD 0])
    ∧ (∀ st : SignalState, st.conversion_preset = 0 →
        (get_conversion_thresholds st ConversionType.A2LConversionByThreshold false).2
          = [(st.min_value + st.max_value) / 2])
    ∧ (∀ st : SignalState, st.conversion_preset = 0 → st.min_value = 0 →
        st.max_value = 1 →
        (get_conversion_thresholds st ConversionType.A2LConversionByThreshold false).2
          = [1/2])
    ∧ (∀ st st' : SignalState, ∀ p : Int, 1 ≤ p →
        (get_conversion_thresholds { st with conversion_preset := p }
            ConversionType.A2LConversionByThreshold false).2
          = (get_conversion_thresholds { st' with conversion_preset := p }
              ConversionType.A2LConversionByThreshold false).2)
    ∧ (∀ st st' : SignalState, ∀ p : Int, 1 ≤ p →
        (get_conversion_thresholds { st with conversion_preset := p }
            ConversionType.A2LConversionBySchmittTrigger false).2
          = (get_conversion_thresholds { st' with conversion_preset := p }
              ConversionType.A2LConversionBySchmittTrigger false).2) := by
  refine ⟨fun st t b => ?_, fun st => rfl, fun st => rfl, fun st hp => ?_,
    fun st hp => ?_, fun st hp hmin hmax => ?_, fun st st' p hp => ?_,
    fun st st' p hp => ?_⟩
  · unfold get_conversion_thresholds
    dsimp only
    split <;> (try split_ifs) <;> rfl
  · rw [get_conversion_thresholds_threshold_eq, hp]
    rfl
  · rw [get_conversion_thresholds_threshold_eq, hp]
    rfl
  · rw [get_conversion_thresholds_threshold_eq, hp, hmin, hmax]
    norm_num
  · have h0 : ¬ (p = 0) := by omega
    rw [get_conversion_thresholds_threshold_eq, get_conversion_thresholds_threshold_eq]
    dsimp only
    rw [if_neg h0, if_pos hp, if_neg h0, if_pos hp]
  · have h0 : ¬ (p = 0) := by omega
    rw [get_conversion_thresholds_schmitt_eq, get_conversion_thresholds_schmitt_eq]
    dsimp only
    rw [if_neg h0, if_pos hp, if_neg h0, if_pos hp]

/-- Witness for C7: the dynamic preset with observed range (0.0, 1.0) gives
effective threshold 0.5 for the single-threshold kind. -/
theorem get_conversion_thresholds_spec_witness :
    (get_conversion_thresholds st_dyn ConversionType.A2LConversionByThreshold false).2
      = [1/2] :=
  get_conversion_thresholds_spec.2.2.2.2.2.1 st_dyn rfl rfl rfl

/-- One segment pair handled by the conversion worker: the analog input
segment as read so far, the converted logic output segment, and the carried
hysteresis state for this segment (spec section 4.4 steps 4-5). -/
structure SegPair where
  analog : List ℚ
  logic : List ℕ
  hstate : ℕ
  deriving DecidableEq, Repr

/-- Modelled from the spec: validity of the active algorithm's effective
thresholds (sections 4.4 and 7 failure semantics: absent or malformed
options — for the schmitt trigger, low greater than high — are a
configuration error). -/
def conv_thresholds_valid : ConversionType → List ℚ → Bool
  | ConversionType.A2LConversionByThreshold, [_] => true
  | ConversionType.A2LConversionBySchmittTrigger, [lo, hi] => decide (lo ≤ hi)
  | _, _ => false

/-- The active algorithm applied sample-by-sample to a chunk, threading the
carried state (spec section 4.4 step 4). -/
def apply_conversion (ct : ConversionType) (thrs : List ℚ) (xs : List ℚ)
    (state : ℕ) : List ℕ × ℕ :=
  match ct, thrs with
  | ConversionType.A2LConversionByThreshold, [thr] =>
      (convert_threshold_seq thr xs, state)
  | ConversionType.A2LConversionBySchmittTrigger, [lo, hi] =>
      convert_schmitt_seq lo hi xs state
  | _, _ => ([], state)

/-- Helper: on valid thresholds the applied algorithm emits one bit per
sample. -/
lemma apply_conversion_length (ct : ConversionType) (thrs xs : List ℚ) (s : ℕ)
    (hv : conv_thresholds_valid ct thrs = true) :
    (apply_conversion ct thrs xs s).1.length = xs.length := by
  rcases ct <;> rcases thrs with _ | ⟨a, _ | ⟨b, _ | ⟨c, rest⟩⟩⟩ <;>
    simp_all [conv_thresholds_valid, apply_conversion, convert_threshold_seq,
      convert_schmitt_seq_length]

/-- Modelled from the spec: the body of `convert_single_segment_range`
(declared at src/pv/data/signalbase.hpp:283-284) is absent. Sections 4.4
steps 3-4 and 7: the worker converts the unconverted range of the analog
segment up to end_sample — the scan resumes where the previous pass left
off, that is at the current length of the logic segment — and appends the
resulting bits to the logic segment; when the effective thresholds are
absent or malformed it stops without writing anything. -/
def convert_single_segment_range (ct : ConversionType) (thrs : List ℚ)
    (seg : SegPair) (end_sample : ℕ) : SegPair :=
  if conv_thresholds_valid ct thrs = true ∧ seg.logic.length ≤ end_sample
      ∧ end_sample ≤ seg.analog.length then
    let chunk := (seg.analog.drop seg.logic.length).take
      (end_sample - seg.logic.length)
    let r := apply_conversion ct thrs chunk seg.hstate
    { seg with logic := seg.logic ++ r.1, hstate := r.2 }
  else seg

/-- Helper: a conversion step never touches the analog segment. -/
lemma convert_single_segment_range_analog (ct : ConversionType) (thrs : List ℚ)
    (seg : SegPair) (end_sample : ℕ) :
    (convert_single_segment_range ct thrs seg end_sample).analog = seg.analog := by
  unfold convert_single_segment_range
  split <;> rfl

/-- Helper: a conversion step never shrinks the logic segment. -/
lemma convert_single_segment_range_mono (ct : ConversionType) (thrs : List ℚ)
    (seg : SegPair) (end_sample : ℕ) :
    seg.logic.length
      ≤ (convert_single_segment_range ct thrs seg end_sample).logic.length := by
  unfold convert_single_segment_range
  split
  · simp
  · exact le_refl _

/-- Helper: a conversion step keeps the logic segment no longer than the
analog segment read. -/
lemma convert_single_segment_range_bound (ct : ConversionType) (thrs : List ℚ)
    (seg : SegPair) (end_sample : ℕ)
    (hinv : seg.logic.length ≤ seg.analog.length) :
    (convert_single_segment_range ct thrs seg end_sample).logic.length
      ≤ (convert_single_segment_range ct thrs seg end_sample).analog.length := by
  unfold convert_single_segment_range
  split
  · rename_i hc
    obtain ⟨hv, h1, h2⟩ := hc
    simp [apply_conversion_length _ _ _ _ hv]
    omega
  · exact hinv

/-- State of a running conversion: the per-segment pairs plus the
configuration snapshot (kind and effective thresholds) the worker read at
the start of the run (spec section 5). -/
structure ConvState where
  segs : List SegPair
  ct : ConversionType
  thrs : List ℚ
  deriving DecidableEq, Repr

/-- Appending freshly captured samples to an analog segment (the producer
side of the segment store, spec section 2). -/
def append_analog_seg (s : SegPair) (new_samples : List ℚ) : SegPair :=
  { s with analog := s.analog ++ new_samples }

/-- Modelled from the spec: the bodies of `conversion_thread_proc` and
`convert_single_segment` (signalbase.hpp:285-287) are absent. One step of
the system while a conversion is active (spec section 4.4): either the
capture producer appends new samples to an analog segment, or the worker
converts a chunk of one segment up to some end sample. -/
inductive ConvStep : ConvState → ConvState → Prop where
  | append_analog (st : ConvState) (i : ℕ) (new_samples : List ℚ)
      (h : i < st.segs.length) :
      ConvStep st
        ⟨st.segs.set i (append_analog_seg (st.segs.get ⟨i, h⟩) new_samples),
         st.ct, st.thrs⟩
  | convert_chunk (st : ConvState) (i end_sample : ℕ) (h : i < st.segs.length) :
      ConvStep st
        ⟨st.segs.set i
          (convert_single_segment_range st.ct st.thrs (st.segs.get ⟨i, h⟩)
            end_sample),
         st.ct, st.thrs⟩

/-- C5: every step taken while conversion is active keeps, for every segment
index, the converted logic segment no longer than the corresponding analog
segment as read, preserves the number of segments, and never decreases any
logic segment's sample count. -/
theorem conversion_invariant (st st' : ConvState) (step : ConvStep st st')
    (inv : ∀ i (h : i < st.segs.length),
      (st.segs.get ⟨i, h⟩).logic.length ≤ (st.segs.get ⟨i, h⟩).analog.length) :
    st'.segs.length = st.segs.length
    ∧ (∀ i (h' : i < st'.segs.length),
        (st'.segs.get ⟨i, h'⟩).logic.length ≤ (st'.segs.get ⟨i, h'⟩).analog.length)
    ∧ (∀ i (h' : i < st'.segs.length) (h : i < st.segs.length),
        (st.segs.get ⟨i, h⟩).logic.length ≤ (st'.segs.get ⟨i, h'⟩).logic.length) := by
  cases step with
  | append_analog i new_samples h =>
      dsimp only
      simp only [List.get_eq_getElem] at inv ⊢
      refine ⟨by simp, fun j h' => ?_, fun j h' h2 => ?_⟩
      · by_cases hj : i = j
        · subst hj
          rw [List.getElem_set_self]
          simp only [append_analog_seg, List.length_append]
          exact le_trans (inv i h) (Nat.le_add_right _ _)
        · rw [List.getElem_set_ne hj]
          exact inv j (by simpa using h')
      · by_cases hj : i = j
        · subst hj
          rw [List.getElem_set_self]
          simp [append_analog_seg]
        · rw [List.getElem_set_ne hj]
  | convert_chunk i end_sample h =>
      dsimp only
      simp only [List.get_eq_getElem] at inv ⊢
      refine ⟨by simp, fun j h' => ?_, fun j h' h2 => ?_⟩
      · by_cases hj : i = j
        · subst hj
          rw [List.getElem_set_self]
          exact convert_single_segment_range_bound _ _ _ _ (inv i h)
        · rw [List.getElem_set_ne hj]
          exact inv j (by simpa using h')
      · by_cases hj : i = j
        · subst hj
          rw [List.getElem_set_self]
          exact convert_single_segment_range_mono _ _ _ _
        · rw [List.getElem_set_ne hj]

/-- Concrete segment pair used to instantiate the worker theorems. -/
def seg_w : SegPair := { analog := [1, 0], logic := [], hstate := 0 }

/-- Concrete conversion run state used to instantiate the worker theorems. -/
def cstate_w : ConvState :=
  { segs := [seg_w], ct := ConversionType.A2LConversionByThreshold, thrs := [1/2] }

/-- Witness for C5: one concrete chunk-conversion step preserves the number
of segments. -/
theorem conversion_invariant_witness :
    (⟨cstate_w.segs.set 0
        (convert_single_segment_range cstate_w.ct cstate_w.thrs
          (cstate_w.segs.get ⟨0, by norm_num [cstate_w]⟩) 2),
      cstate_w.ct, cstate_w.thrs⟩ : ConvState).segs.length
      = cstate_w.segs.length :=
  (conversion_invariant cstate_w _
    (ConvStep.convert_chunk cstate_w 0 2 (by norm_num [cstate_w]))
    (fun i h => by
      have hl : cstate_w.segs.length = 1 := rfl
      have hi : i = 0 := by omega
      subst hi
      simp [cstate_w, seg_w])).1

/-- C9: malformed effective thresholds — for the schmitt trigger, a low
threshold above the high one, and in general absent or arity-mismatched
option values — make the worker's chunk conversion write nothing at all: the
segment (in particular its logic output store) is left unchanged. -/
theorem conversion_config_error_no_write :
    (∀ lo hi : ℚ, hi < lo →
      conv_thresholds_valid ConversionType.A2LConversionBySchmittTrigger [lo, hi]
        = false)
    ∧ (∀ (ct : ConversionType) (thrs : List ℚ) (seg : SegPair) (end_sample : ℕ),
        conv_thresholds_valid ct thrs = false →
        convert_single_segment_range ct thrs seg end_sample = seg)
    ∧ (∀ (ct : ConversionType) (seg : SegPair) (end_sample : ℕ),
        convert_single_segment_range ct [] seg end_sample = seg) := by
  refine ⟨fun lo hi hlt => ?_, fun ct thrs seg e hv => ?_, fun ct seg e => ?_⟩
  · simp [conv_thresholds_valid, hlt.not_le]
  · simp [convert_single_segment_range, hv]
  · cases ct <;> simp [convert_single_segment_range, conv_thresholds_valid]

/-- Witness for C9: a schmitt-trigger configuration with low 1 above high 0
leaves a concrete segment unchanged. -/
theorem conversion_config_error_no_write_witness :
    convert_single_segment_range ConversionType.A2LConversionBySchmittTrigger
      [1, 0] seg_w 2 = seg_w :=
  conversion_config_error_no_write.2.1 ConversionType.A2LConversionBySchmittTrigger
    [1, 0] seg_w 2
    (conversion_config_error_no_write.1 1 0 (by norm_num))

/-- Modelled from the spec: the body of `logic_bit_index`
(declared at src/pv/data/signalbase.hpp:131) is absent. Its documentation
comment (signalbase.hpp:125-130): the returned bit index is relevant for
compound logic signals, and a conversion providing a digital signal uses bit
number 0, so logic channels report their own channel index and everything
else — in particular an analog channel with an active conversion — reports
bit 0. -/
def logic_bit_index (channel_type : ChannelType) (channel_index : ℕ) : ℕ :=
  match channel_type with
  | ChannelType.LogicChannel => channel_index
  | _ => 0

/-- C10: the simple-threshold step only returns 0 or 1; the schmitt-trigger
step returns a bit equal to its updated carried state which, whenever the
carried state was a single bit, is again 0 or 1 — so converted output lives
in bit index 0, as logic_bit_index reports for converted (analog) signals. -/
theorem conversion_outputs_bit_zero :
    (∀ t v : ℚ, convert_a2l_threshold t v = 0 ∨ convert_a2l_threshold t v = 1)
    ∧ (∀ (lo hi v : ℚ) (s : ℕ), s ≤ 1 →
        (convert_a2l_schmitt_trigger lo hi v s).1
            = (convert_a2l_schmitt_trigger lo hi v s).2
          ∧ (convert_a2l_schmitt_trigger lo hi v s).1 ≤ 1)
    ∧ (∀ idx : ℕ, logic_bit_index ChannelType.AnalogChannel idx = 0) := by
  refine ⟨fun t v => ?_, fun lo hi v s hs => ?_, fun idx => rfl⟩
  · unfold convert_a2l_threshold
    split <;> simp
  · unfold convert_a2l_schmitt_trigger
    split_ifs <;> exact ⟨rfl, by omega⟩

/-- Witness for C10 at concrete inputs. -/
theorem conversion_outputs_bit_zero_witness :
    (convert_a2l_schmitt_trigger 0 1 2 0).1 = (convert_a2l_schmitt_trigger 0 1 2 0).2
    ∧ (convert_a2l_schmitt_trigger 0 1 2 0).1 ≤ 1 :=
  conversion_outputs_bit_zero.2.1 0 1 2 0 (by norm_num)
